import Mathlib

set_option maxHeartbeats 1000000

/-!
Shallow embedding of the `lexkey` encoding library (`src/lib.rs`,
`src/lexkey.rs`, `src/encoder.rs`).

Modelling conventions: a byte is a `Nat` (the encoders only produce values
below 256); `Bytes` buffers, `Vec<u8>` destinations and keys are `List Nat`;
a `u64` is a `Nat` below `2 ^ 64`; an `i64` is an `Int` in `[-2^63, 2^63)`;
an `f64` is represented by its IEEE-754 bit pattern (a `Nat` below `2 ^ 64`);
a Rust panic is `Option.none`.  Capacity hints only affect allocation, never
the produced bytes, so they are ignored.
-/

/-- Unsigned lexicographic strict order on byte sequences, as used by
`impl Ord for LexKey` (comparison of the raw `Bytes`); on common-prefix ties
the shorter sequence is smaller. -/
def lexLt : List Nat → List Nat → Bool
  | [], [] => false
  | [], _ :: _ => true
  | _ :: _, [] => false
  | a :: as, b :: bs => if a < b then true else if a = b then lexLt as bs else false

/-- Reflexive closure of `lexLt`. -/
def lexLe (a b : List Nat) : Bool := lexLt a b || a == b

/-- Model of `u64::to_be_bytes`, generalised to `k` bytes: most significant
byte first, so `toBE 8 n` is the big-endian 8-byte layout of `n`. -/
def toBE : Nat → Nat → List Nat
  | 0, _ => []
  | k + 1, n => (n / 2 ^ (8 * k)) % 256 :: toBE k (n % 2 ^ (8 * k))

/-- `LexKey::SEPARATOR`, the `0x00` byte placed between composite parts. -/
def LexKey.SEPARATOR : Nat := 0x00

/-- `LexKey::END_MARKER`, the `0xFF` byte used by `encode_last`. -/
def LexKey.END_MARKER : Nat := 0xFF

/-- `LexKey::empty`. -/
def LexKey.empty : List Nat := []

/-- `LexKey::encode_string`: the UTF-8 bytes copied as-is. -/
def LexKey.encode_string (s : List Nat) : List Nat := s

/-- `LexKey::encode_u64`: 8-byte big-endian layout. -/
def LexKey.encode_u64 (n : Nat) : List Nat := toBE 8 n

/-- `LexKey::encode_u64_into`: appends the encoding to `dst` and returns the
grown buffer together with the count written (always 8). -/
def LexKey.encode_u64_into (dst : List Nat) (n : Nat) : List Nat × Nat :=
  (dst ++ toBE 8 n, 8)

/-- The `i64` transform `(n as u64) ^ 0x8000_0000_0000_0000`, written
identically in `LexKey::encode_i64`, `LexKey::encode_i64_into` and
`Encoder::encode_i64_into`; `n as u64` is the two's-complement
reinterpretation, i.e. `n` reduced modulo `2 ^ 64`. -/
def i64_transform (n : Int) : Nat :=
  (n % 0x10000000000000000).toNat ^^^ 0x8000000000000000

/-- `LexKey::encode_i64`. -/
def LexKey.encode_i64 (n : Int) : List Nat := toBE 8 (i64_transform n)

/-- `LexKey::encode_i64_into`. -/
def LexKey.encode_i64_into (dst : List Nat) (n : Int) : List Nat × Nat :=
  (dst ++ toBE 8 (i64_transform n), 8)

/-- `LexKey::encode_bool`: `false → 0x00`, `true → 0x01`. -/
def LexKey.encode_bool (b : Bool) : List Nat := if b then [0x01] else [0x00]

/-- `LexKey::encode_bool_into`. -/
def LexKey.encode_bool_into (dst : List Nat) (b : Bool) : List Nat × Nat :=
  (dst ++ [if b then 0x01 else 0x00], 1)

/-- Model of `f64::is_nan` on the bit pattern: exponent field all ones
together with a non-zero mantissa. -/
def isNaN (bits : Nat) : Bool :=
  (bits / 2 ^ 52) % 2048 == 2047 && bits % 2 ^ 52 != 0

/-- The branching `f64` transform used by `LexKey::encode_f64` and
`LexKey::encode_f64_into`: bit patterns with the sign bit set are
bitwise-complemented (`!bits`, i.e. XOR with all ones on `u64`), the others
get the sign bit flipped. -/
def f64_transform (bits : Nat) : Nat :=
  if bits >>> 63 = 1 then bits ^^^ 0xFFFFFFFFFFFFFFFF
  else bits ^^^ 0x8000000000000000

/-- `LexKey::encode_f64`; `none` models the panic on NaN. -/
def LexKey.encode_f64 (bits : Nat) : Option (List Nat) :=
  if isNaN bits then none else some (toBE 8 (f64_transform bits))

/-- `LexKey::encode_f64_into`; `none` models the panic on NaN. -/
def LexKey.encode_f64_into (dst : List Nat) (bits : Nat) : Option (List Nat × Nat) :=
  if isNaN bits then none else some (dst ++ toBE 8 (f64_transform bits), 8)

/-- `LexKey::encode_uuid`: the 16 raw RFC4122 bytes. -/
def LexKey.encode_uuid (u : List Nat) : List Nat := u

/-- `LexKey::encode_uuid_into`. -/
def LexKey.encode_uuid_into (dst : List Nat) (u : List Nat) : List Nat × Nat :=
  (dst ++ u, 16)

/-- `LexKey::encode_time_unix_nanos`: delegates to `encode_i64`. -/
def LexKey.encode_time_unix_nanos (nanos : Int) : List Nat :=
  LexKey.encode_i64 nanos

/-- `LexKey::encode_end_marker`. -/
def LexKey.encode_end_marker : List Nat := [0xFF]

/-- `encode_len` from `lib.rs`: sum of part lengths plus the separators
between parts. -/
def encode_len (parts : List (List Nat)) : Nat :=
  (parts.map List.length).sum + if parts.length > 1 then parts.length - 1 else 0

/-- `LexKey::encode_composite`: the loop appends each part and, while further
parts remain (`i + 1 < parts.len()`), one separator. -/
def LexKey.encode_composite : List (List Nat) → List Nat
  | [] => []
  | [p] => p
  | p :: ps => p ++ LexKey.SEPARATOR :: LexKey.encode_composite ps

/-- Loop of `LexKey::encode_composite_into`: appends each non-empty part and,
while further parts remain, one separator. -/
def composeIntoGo (dst : List Nat) : List (List Nat) → List Nat
  | [] => dst
  | [p] => dst ++ (if p.isEmpty then [] else p)
  | p :: ps => composeIntoGo ((dst ++ (if p.isEmpty then [] else p)) ++ [LexKey.SEPARATOR]) ps

/-- `LexKey::encode_composite_into`: early-returns 0 on no parts, otherwise
runs the loop and returns `dst.len() - start`. -/
def LexKey.encode_composite_into (dst : List Nat) (parts : List (List Nat)) :
    List Nat × Nat :=
  if parts.isEmpty then (dst, 0)
  else
    let d := composeIntoGo dst parts
    (d, d.length - dst.length)

/-- `Encoder`: the reusable scratch buffer (`BytesMut`); only its contents are
observable in the produced bytes. -/
structure Encoder where
  buf : List Nat

/-- `Encoder::with_capacity`: fresh empty buffer (capacity is only a hint). -/
def Encoder.with_capacity (_cap : Nat) : Encoder := ⟨[]⟩

/-- `Encoder::clear`: resets the length to zero; retained capacity is not
observable in the contents. -/
def Encoder.clear (_e : Encoder) : Encoder := ⟨[]⟩

/-- `Encoder::freeze`. -/
def Encoder.freeze (e : Encoder) : List Nat := e.buf

/-- `Encoder::as_slice`. -/
def Encoder.as_slice (e : Encoder) : List Nat := e.buf

/-- `Encoder::len`. -/
def Encoder.len (e : Encoder) : Nat := e.buf.length

/-- `Encoder::push_byte`. -/
def Encoder.push_byte (e : Encoder) (b : Nat) : Encoder := ⟨e.buf ++ [b]⟩

/-- `Encoder::encode_string_into`. -/
def Encoder.encode_string_into (e : Encoder) (s : List Nat) : Encoder × Nat :=
  (⟨e.buf ++ s⟩, s.length)

/-- `Encoder::encode_u64_into`. -/
def Encoder.encode_u64_into (e : Encoder) (n : Nat) : Encoder × Nat :=
  (⟨e.buf ++ toBE 8 n⟩, 8)

/-- `Encoder::encode_i64_into`. -/
def Encoder.encode_i64_into (e : Encoder) (n : Int) : Encoder × Nat :=
  (⟨e.buf ++ toBE 8 (i64_transform n)⟩, 8)

/-- `b as i64`: two's-complement reinterpretation of a `u64` bit pattern. -/
def toI64 (b : Nat) : Int :=
  if b < 0x8000000000000000 then (b : Int) else (b : Int) - 0x10000000000000000

/-- `((b as i64) >> 63) as u64` from `Encoder::encode_f64_into`: arithmetic
right shift by 63 is floor division by `2 ^ 63` (which `Int` division
performs for a positive divisor), and `as u64` reduces modulo `2 ^ 64`. -/
def sar63 (b : Nat) : Nat :=
  ((toI64 b / 0x8000000000000000) % 0x10000000000000000).toNat

/-- The branchless `f64` transform of `Encoder::encode_f64_into`:
`(neg & mask) | (pos & !mask)` with `neg = !b`, `pos = b ^ signbit`. -/
def f64_transform_branchless (b : Nat) : Nat :=
  let mask := sar63 b
  let neg := b ^^^ 0xFFFFFFFFFFFFFFFF
  let pos := b ^^^ 0x8000000000000000
  (neg &&& mask) ||| (pos &&& (mask ^^^ 0xFFFFFFFFFFFFFFFF))

/-- `Encoder::encode_f64_into`; `none` models the panic on NaN. -/
def Encoder.encode_f64_into (e : Encoder) (x : Nat) : Option (Encoder × Nat) :=
  if isNaN x then none
  else some (⟨e.buf ++ toBE 8 (f64_transform_branchless x)⟩, 8)

/-- `Encoder::encode_uuid_into_buf`. -/
def Encoder.encode_uuid_into_buf (e : Encoder) (u : List Nat) : Encoder × Nat :=
  (⟨e.buf ++ u⟩, 16)

/-- Loop of `Encoder::encode_composite_into_buf`, threading the `written`
counter. -/
def encBufGo (dst : List Nat) (written : Nat) : List (List Nat) → List Nat × Nat
  | [] => (dst, written)
  | [p] => if p.isEmpty then (dst, written) else (dst ++ p, written + p.length)
  | p :: ps =>
    let d := if p.isEmpty then dst else dst ++ p
    let w := if p.isEmpty then written else written + p.length
    encBufGo (d ++ [LexKey.SEPARATOR]) (w + 1) ps

/-- `Encoder::encode_composite_into_buf`: early-returns 0 on no parts,
otherwise runs the loop. -/
def Encoder.encode_composite_into_buf (e : Encoder) (parts : List (List Nat)) :
    Encoder × Nat :=
  if parts.isEmpty then (e, 0)
  else
    let r := encBufGo e.buf 0 parts
    (⟨r.1⟩, r.2)

/-- `LexKey::encode_first`: composite of the parts followed by one
`SEPARATOR`, built through an `Encoder`. -/
def LexKey.encode_first (parts : List (List Nat)) : List Nat :=
  (((Encoder.with_capacity (encode_len parts + 1)).encode_composite_into_buf
      parts).1.push_byte LexKey.SEPARATOR).freeze

/-- `LexKey::encode_last`: composite of the parts followed by one
`END_MARKER`, built through an `Encoder`. -/
def LexKey.encode_last (parts : List (List Nat)) : List Nat :=
  (((Encoder.with_capacity (encode_len parts + 1)).encode_composite_into_buf
      parts).1.push_byte LexKey.END_MARKER).freeze

/-- Sign bit of an `f64` bit pattern. -/
def fsign (b : Nat) : Nat := b >>> 63

/-- Sign-magnitude payload (everything but the sign bit) of an `f64` bit
pattern. -/
def fmag (b : Nat) : Nat := b % 0x8000000000000000

/-- Model of the IEEE-754 `<` comparison of two non-NaN `f64` values, stated
on their bit patterns: positive payloads compare by magnitude, negative ones
in reverse, every negative value is below every non-negative one except that
`-0.0 < 0.0` is false (the two zeroes are numerically equal). -/
def fLt (x y : Nat) : Bool :=
  if fsign x = 1 then
    if fsign y = 1 then decide (fmag y < fmag x)
    else !(fmag x == 0 && fmag y == 0)
  else
    if fsign y = 1 then false
    else decide (fmag x < fmag y)

/-- One buffer operation of the `Encoder`, for the reuse claim. -/
inductive Op where
  | push (b : Nat)
  | str (s : List Nat)
  | u64 (n : Nat)
  | i64 (n : Int)
  | f64 (bits : Nat)
  | uuid (u : List Nat)
  | composite (parts : List (List Nat))

/-- Run one `Encoder` operation; `none` models a NaN panic. -/
def runOp (e : Encoder) : Op → Option Encoder
  | Op.push b => some (e.push_byte b)
  | Op.str s => some (e.encode_string_into s).1
  | Op.u64 n => some (e.encode_u64_into n).1
  | Op.i64 n => some (e.encode_i64_into n).1
  | Op.f64 bits => (e.encode_f64_into bits).map Prod.fst
  | Op.uuid u => some (e.encode_uuid_into_buf u).1
  | Op.composite parts => some (e.encode_composite_into_buf parts).1

/-- Run a sequence of `Encoder` operations. -/
def runOps : Encoder → List Op → Option Encoder
  | e, [] => some e
  | e, op :: ops => (runOp e op).bind fun e2 => runOps e2 ops

/-! ### Arithmetic helper lemmas -/

lemma xor_two_pow_of_lt {n m : Nat} (h : m < 2 ^ n) : m ^^^ 2 ^ n = 2 ^ n + m := by
  apply Nat.eq_of_testBit_eq
  intro i
  rcases Nat.lt_trichotomy i n with hi | hi | hi
  · rw [Nat.testBit_xor, Nat.testBit_two_pow_of_ne (Nat.ne_of_gt hi),
      Nat.testBit_two_pow_add_gt hi]
    simp
  · subst hi
    rw [Nat.testBit_xor, Nat.testBit_two_pow_self, Nat.testBit_two_pow_add_eq,
      Nat.testBit_lt_two_pow h]
    simp
  · have h1 : m < 2 ^ i :=
      lt_of_lt_of_le h (Nat.pow_le_pow_right (by norm_num) (Nat.le_of_lt hi))
    have h2 : 2 ^ n + m < 2 ^ i := by
      have hle : 2 ^ (n + 1) ≤ 2 ^ i := Nat.pow_le_pow_right (by norm_num) hi
      have hp : 2 ^ (n + 1) = 2 ^ n + 2 ^ n := by ring
      omega
    rw [Nat.testBit_xor, Nat.testBit_lt_two_pow h1, Nat.testBit_lt_two_pow h2,
      Nat.testBit_two_pow_of_ne (Nat.ne_of_lt hi)]
    simp

lemma xor_two_pow_of_ge {n m : Nat} (h1 : 2 ^ n ≤ m) (h2 : m < 2 ^ (n + 1)) :
    m ^^^ 2 ^ n = m - 2 ^ n := by
  have hp : 2 ^ (n + 1) = 2 ^ n + 2 ^ n := by ring
  have hm : m - 2 ^ n < 2 ^ n := by omega
  have hx := xor_two_pow_of_lt hm
  have hmm : (m - 2 ^ n) ^^^ 2 ^ n = m := by omega
  calc m ^^^ 2 ^ n = ((m - 2 ^ n) ^^^ 2 ^ n) ^^^ 2 ^ n := by rw [hmm]
    _ = m - 2 ^ n := Nat.xor_cancel_right _ _

lemma xor_ones {n m : Nat} (h : m < 2 ^ n) : m ^^^ (2 ^ n - 1) = 2 ^ n - 1 - m := by
  apply Nat.eq_of_testBit_eq
  intro i
  have hr : 2 ^ n - 1 - m = 2 ^ n - (m + 1) := by omega
  rw [Nat.testBit_xor, Nat.testBit_two_pow_sub_one, hr, Nat.testBit_two_pow_sub_succ h]
  by_cases hi : i < n
  · simp [hi]
  · have : m < 2 ^ i :=
      lt_of_lt_of_le h (Nat.pow_le_pow_right (by norm_num) (Nat.le_of_not_lt hi))
    simp [hi, Nat.testBit_lt_two_pow this]

lemma toBE_length : ∀ k n, (toBE k n).length = k
  | 0, _ => rfl
  | k + 1, n => by simp [toBE, toBE_length k]

lemma toBE_lt_iff : ∀ k x y, x < 2 ^ (8 * k) → y < 2 ^ (8 * k) →
    (lexLt (toBE k x) (toBE k y) = true ↔ x < y)
  | 0, x, y, hx, hy => by
    simp only [Nat.mul_zero, Nat.pow_zero] at hx hy
    simp [toBE, lexLt]
    omega
  | k + 1, x, y, hx, hy => by
    have hpk : 0 < 2 ^ (8 * k) := Nat.pow_pos (by norm_num)
    have hsucc : 2 ^ (8 * (k + 1)) = 2 ^ (8 * k) * 256 := by
      rw [show 8 * (k + 1) = 8 * k + 8 by ring, pow_add]
      norm_num
    rw [hsucc] at hx hy
    have hqx : x / 2 ^ (8 * k) < 256 := Nat.div_lt_of_lt_mul hx
    have hqy : y / 2 ^ (8 * k) < 256 := Nat.div_lt_of_lt_mul hy
    have hmx : x % 2 ^ (8 * k) < 2 ^ (8 * k) := Nat.mod_lt _ hpk
    have hmy : y % 2 ^ (8 * k) < 2 ^ (8 * k) := Nat.mod_lt _ hpk
    have IH := toBE_lt_iff k (x % 2 ^ (8 * k)) (y % 2 ^ (8 * k)) hmx hmy
    simp only [toBE, Nat.mod_eq_of_lt hqx, Nat.mod_eq_of_lt hqy, lexLt]
    split
    · rename_i h1
      simpa using Nat.lt_of_div_lt_div h1
    · split
      · rename_i h1 h2
        rw [IH]
        have dx := Nat.div_add_mod x (2 ^ (8 * k))
        have dy := Nat.div_add_mod y (2 ^ (8 * k))
        rw [h2] at dx
        obtain ⟨t, ht⟩ : ∃ t, 2 ^ (8 * k) * (y / 2 ^ (8 * k)) = t := ⟨_, rfl⟩
        rw [ht] at dx dy
        omega
      · rename_i h1 h2
        have hyx : y / 2 ^ (8 * k) < x / 2 ^ (8 * k) := by omega
        have := Nat.lt_of_div_lt_div hyx
        simp
        omega

/-! ### Lexicographic order helper lemmas -/

lemma lexLt_append_same (A B C : List Nat) : lexLt (A ++ B) (A ++ C) = lexLt B C := by
  induction A with
  | nil => rfl
  | cons a A ih => simp [lexLt, ih]

lemma lexLe_append_same (A B C : List Nat) : lexLe (A ++ B) (A ++ C) = lexLe B C := by
  unfold lexLe
  rw [lexLt_append_same, Bool.eq_iff_iff]
  simp

lemma lexLe_nil (X : List Nat) : lexLe [] X = true := by
  cases X <;> simp [lexLe, lexLt]

lemma lexLt_sep_cons (X : List Nat) : lexLt (0x00 :: X) [0xFF] = true := by
  simp [lexLt]

/-! ### Scalar transform characterisations -/

lemma i64_transform_eq {n : Int} (h1 : -2 ^ 63 ≤ n) (h2 : n < 2 ^ 63) :
    i64_transform n = (n + 2 ^ 63).toNat := by
  unfold i64_transform
  have hlit : (0x10000000000000000 : Int) = 2 ^ 64 := by norm_num
  rcases le_or_lt 0 n with hn | hn
  · have hmod : n % 0x10000000000000000 = n := by
      apply Int.emod_eq_of_lt hn
      rw [hlit]
      calc n < 2 ^ 63 := h2
        _ < 2 ^ 64 := by norm_num
    rw [hmod]
    have hlt : n.toNat < 2 ^ 63 := by omega
    have := xor_two_pow_of_lt hlt
    rw [show (0x8000000000000000 : Nat) = 2 ^ 63 by norm_num, this]
    omega
  · have hmod : n % 0x10000000000000000 = n + 0x10000000000000000 := by omega
    rw [hmod]
    have hge : 2 ^ 63 ≤ (n + 0x10000000000000000).toNat := by omega
    have hlt : (n + 0x10000000000000000).toNat < 2 ^ (63 + 1) := by omega
    have := xor_two_pow_of_ge hge hlt
    rw [show (0x8000000000000000 : Nat) = 2 ^ 63 by norm_num, this]
    omega

lemma f64_transform_eq {b : Nat} (hb : b < 2 ^ 64) :
    f64_transform b = if b < 2 ^ 63 then 2 ^ 63 + b else 2 ^ 64 - 1 - b := by
  unfold f64_transform
  rw [Nat.shiftRight_eq_div_pow]
  rcases lt_or_le b (2 ^ 63) with h | h
  · have hdiv : b / 2 ^ 63 = 0 := by omega
    rw [hdiv, show (0x8000000000000000 : Nat) = 2 ^ 63 by norm_num,
      xor_two_pow_of_lt h, if_neg (by norm_num : ¬ (0 : Nat) = 1), if_pos h]
  · have hdiv : b / 2 ^ 63 = 1 := by omega
    rw [hdiv, show (0xFFFFFFFFFFFFFFFF : Nat) = 2 ^ 64 - 1 by norm_num,
      xor_ones hb, if_pos rfl, if_neg (Nat.not_lt.mpr h)]

lemma f64_transform_lt_two_pow {b : Nat} (hb : b < 2 ^ 64) :
    f64_transform b < 2 ^ 64 := by
  rw [f64_transform_eq hb]
  split <;> omega

lemma sar63_eq {b : Nat} (hb : b < 2 ^ 64) :
    sar63 b = if b < 2 ^ 63 then 0 else 2 ^ 64 - 1 := by
  unfold sar63 toI64
  split
  · rename_i h
    have h0 : (b : Int) / 0x8000000000000000 = 0 := by omega
    rw [h0]
    split <;> omega
  · rename_i h
    have h1 : ((b : Int) - 0x10000000000000000) / 0x8000000000000000 = -1 := by omega
    rw [h1]
    split <;> omega

lemma f64_transform_branchless_eq {b : Nat} (hb : b < 2 ^ 64) :
    f64_transform_branchless b = f64_transform b := by
  have hones : (0xFFFFFFFFFFFFFFFF : Nat) = 2 ^ 64 - 1 := by norm_num
  have hneg : b ^^^ (2 ^ 64 - 1) < 2 ^ 64 := Nat.xor_lt_two_pow hb (by norm_num)
  have hpos : b ^^^ 0x8000000000000000 < 2 ^ 64 := Nat.xor_lt_two_pow hb (by norm_num)
  simp only [f64_transform_branchless, f64_transform]
  rw [Nat.shiftRight_eq_div_pow, sar63_eq hb, hones]
  rcases lt_or_le b (2 ^ 63) with h | h
  · have hdiv : b / 2 ^ 63 = 0 := by omega
    rw [if_pos h, hdiv, Nat.and_zero, Nat.zero_xor, Nat.zero_or,
      Nat.and_pow_two_sub_one_of_lt_two_pow hpos]
    norm_num
  · have hdiv : b / 2 ^ 63 = 1 := by omega
    rw [if_neg (Nat.not_lt.mpr h), hdiv, Nat.xor_self, Nat.and_zero, Nat.or_zero,
      Nat.and_pow_two_sub_one_of_lt_two_pow hneg]
    norm_num

lemma f64_transform_lt {x y : Nat} (hx : x < 2 ^ 64) (hy : y < 2 ^ 64)
    (h : fLt x y = true) : f64_transform x < f64_transform y := by
  rw [f64_transform_eq hx, f64_transform_eq hy]
  unfold fLt fsign fmag at h
  rw [Nat.shiftRight_eq_div_pow, Nat.shiftRight_eq_div_pow] at h
  rcases lt_or_le x (2 ^ 63) with h1 | h1 <;> rcases lt_or_le y (2 ^ 63) with h2 | h2
  · have d1 : x / 2 ^ 63 = 0 := by omega
    have d2 : y / 2 ^ 63 = 0 := by omega
    rw [d1, d2] at h
    simp at h
    rw [if_pos h1, if_pos h2]
    omega
  · have d1 : x / 2 ^ 63 = 0 := by omega
    have d2 : y / 2 ^ 63 = 1 := by omega
    rw [d1, d2] at h
    simp at h
  · rw [if_neg (Nat.not_lt.mpr h1), if_pos h2]
    omega
  · have d1 : x / 2 ^ 63 = 1 := by omega
    have d2 : y / 2 ^ 63 = 1 := by omega
    rw [d1, d2] at h
    simp at h
    rw [if_neg (Nat.not_lt.mpr h1), if_neg (Nat.not_lt.mpr h2)]
    omega

/-! ### Composite helper lemmas -/

lemma encode_composite_cons_cons (p q : List Nat) (ps : List (List Nat)) :
    LexKey.encode_composite (p :: q :: ps) =
      p ++ LexKey.SEPARATOR :: LexKey.encode_composite (q :: ps) := rfl

lemma intercalate_cons_cons (s p q : List Nat) (ps : List (List Nat)) :
    List.intercalate s (p :: q :: ps) = p ++ s ++ List.intercalate s (q :: ps) := by
  simp [List.intercalate, List.intersperse_cons_cons]

lemma encode_composite_eq_intercalate :
    ∀ parts : List (List Nat),
      LexKey.encode_composite parts = List.intercalate [LexKey.SEPARATOR] parts
  | [] => rfl
  | [p] => by simp [LexKey.encode_composite, List.intercalate]
  | p :: q :: ps => by
    rw [encode_composite_cons_cons, encode_composite_eq_intercalate (q :: ps),
      intercalate_cons_cons]
    simp

lemma encode_composite_append :
    ∀ p : List (List Nat), p ≠ [] → ∀ e : List (List Nat), e ≠ [] →
      LexKey.encode_composite (p ++ e) =
        LexKey.encode_composite p ++ LexKey.SEPARATOR :: LexKey.encode_composite e
  | [], hp, _, _ => absurd rfl hp
  | [a], _, e, he => by
    cases e with
    | nil => exact absurd rfl he
    | cons b e' =>
      show LexKey.encode_composite (a :: b :: e') = _
      rw [encode_composite_cons_cons]
      rfl
  | a :: c :: p', _, e, he => by
    have h1 : (a :: c :: p') ++ e = a :: ((c :: p') ++ e) := rfl
    have h2 : (c :: p') ++ e = c :: (p' ++ e) := rfl
    rw [h1, h2, encode_composite_cons_cons, ← h2,
      encode_composite_append (c :: p') (by simp) e he, encode_composite_cons_cons]
    simp

lemma composeIntoGo_eq :
    ∀ (dst : List Nat) (parts : List (List Nat)),
      composeIntoGo dst parts = dst ++ LexKey.encode_composite parts
  | dst, [] => by simp [composeIntoGo, LexKey.encode_composite]
  | dst, [p] => by
    cases p <;> simp [composeIntoGo, LexKey.encode_composite]
  | dst, p :: q :: ps => by
    show composeIntoGo ((dst ++ (if p.isEmpty then [] else p)) ++ [LexKey.SEPARATOR])
        (q :: ps) = _
    rw [composeIntoGo_eq, encode_composite_cons_cons]
    cases p <;> simp

lemma encBufGo_eq :
    ∀ (dst : List Nat) (w : Nat) (parts : List (List Nat)),
      encBufGo dst w parts =
        (dst ++ LexKey.encode_composite parts,
          w + (LexKey.encode_composite parts).length)
  | dst, w, [] => by simp [encBufGo, LexKey.encode_composite]
  | dst, w, [p] => by
    cases p <;> simp [encBufGo, LexKey.encode_composite]
  | dst, w, p :: q :: ps => by
    show encBufGo ((if p.isEmpty then dst else dst ++ p) ++ [LexKey.SEPARATOR])
        ((if p.isEmpty then w else w + p.length) + 1) (q :: ps) = _
    rw [encBufGo_eq, encode_composite_cons_cons]
    cases p with
    | nil =>
      simp
      omega
    | cons a as =>
      simp
      omega

lemma encode_composite_into_eq (dst : List Nat) (parts : List (List Nat)) :
    LexKey.encode_composite_into dst parts =
      (dst ++ LexKey.encode_composite parts,
        (LexKey.encode_composite parts).length) := by
  unfold LexKey.encode_composite_into
  cases parts with
  | nil => simp [LexKey.encode_composite]
  | cons p ps =>
    rw [composeIntoGo_eq]
    simp

lemma encode_composite_into_buf_eq (e : Encoder) (parts : List (List Nat)) :
    Encoder.encode_composite_into_buf e parts =
      (⟨e.buf ++ LexKey.encode_composite parts⟩,
        (LexKey.encode_composite parts).length) := by
  unfold Encoder.encode_composite_into_buf
  cases parts with
  | nil => simp [LexKey.encode_composite]
  | cons p ps =>
    rw [encBufGo_eq]
    simp

lemma encode_first_eq (parts : List (List Nat)) :
    LexKey.encode_first parts = LexKey.encode_composite parts ++ [LexKey.SEPARATOR] := by
  unfold LexKey.encode_first
  rw [encode_composite_into_buf_eq]
  simp [Encoder.with_capacity, Encoder.push_byte, Encoder.freeze]

lemma encode_last_eq (parts : List (List Nat)) :
    LexKey.encode_last parts = LexKey.encode_composite parts ++ [LexKey.END_MARKER] := by
  unfold LexKey.encode_last
  rw [encode_composite_into_buf_eq]
  simp [Encoder.with_capacity, Encoder.push_byte, Encoder.freeze]

lemma encode_composite_length :
    ∀ parts : List (List Nat),
      (LexKey.encode_composite parts).length =
        (parts.map List.length).sum + (parts.length - 1)
  | [] => rfl
  | [p] => by simp [LexKey.encode_composite]
  | p :: q :: ps => by
    rw [encode_composite_cons_cons]
    have ih := encode_composite_length (q :: ps)
    simp [ih]
    omega

lemma encode_composite_middle_empty (xs ys : List (List Nat)) :
    LexKey.encode_composite (xs ++ [] :: ys) =
      LexKey.encode_composite xs ++
        (if xs.isEmpty then [] else [LexKey.SEPARATOR]) ++
        (if ys.isEmpty then [] else [LexKey.SEPARATOR]) ++
      LexKey.encode_composite ys := by
  cases xs with
  | nil =>
    cases ys with
    | nil => rfl
    | cons b ys' =>
      show LexKey.encode_composite (([] : List Nat) :: b :: ys') = _
      rw [encode_composite_cons_cons]
      simp [LexKey.encode_composite]
  | cons a xs' =>
    cases ys with
    | nil =>
      rw [encode_composite_append (a :: xs') (by simp) [[]] (by simp)]
      simp [LexKey.encode_composite]
    | cons b ys' =>
      rw [encode_composite_append (a :: xs') (by simp) ([] :: b :: ys') (by simp),
        encode_composite_cons_cons]
      simp

/-! ### Claim theorems -/

/-- C1: for all signed 64-bit `a < b`, `encode_i64 a` is lexicographically
below `encode_i64 b` under unsigned byte comparison; moreover `encode_i64`
maps `i64::MIN` to eight `0x00` bytes and `i64::MAX` to eight `0xFF`
bytes. -/
theorem C1_i64_order_boundaries (a b : Int) (ha : -2 ^ 63 ≤ a) (hab : a < b)
    (hb : b < 2 ^ 63) :
    lexLt (LexKey.encode_i64 a) (LexKey.encode_i64 b) = true
    ∧ LexKey.encode_i64 (-9223372036854775808) =
        [0x00, 0x00, 0x00, 0x00, 0x00, 0x00, 0x00, 0x00]
    ∧ LexKey.encode_i64 9223372036854775807 =
        [0xFF, 0xFF, 0xFF, 0xFF, 0xFF, 0xFF, 0xFF, 0xFF] := by
  refine ⟨?_, by decide, by decide⟩
  unfold LexKey.encode_i64
  rw [i64_transform_eq ha (lt_trans hab hb),
    i64_transform_eq (le_trans ha (le_of_lt hab)) hb]
  have h88 : (2 : Nat) ^ (8 * 8) = 2 ^ 64 := by norm_num
  have hxa : (a + 2 ^ 63).toNat < 2 ^ (8 * 8) := by rw [h88]; omega
  have hxb : (b + 2 ^ 63).toNat < 2 ^ (8 * 8) := by rw [h88]; omega
  exact (toBE_lt_iff 8 _ _ hxa hxb).mpr (by omega)

theorem C1_witness :
    lexLt (LexKey.encode_i64 (-5)) (LexKey.encode_i64 7) = true
    ∧ LexKey.encode_i64 (-9223372036854775808) =
        [0x00, 0x00, 0x00, 0x00, 0x00, 0x00, 0x00, 0x00]
    ∧ LexKey.encode_i64 9223372036854775807 =
        [0xFF, 0xFF, 0xFF, 0xFF, 0xFF, 0xFF, 0xFF, 0xFF] :=
  C1_i64_order_boundaries (-5) 7 (by norm_num) (by norm_num) (by norm_num)

/-- C3 (counterexample): at the empty prefix `p = []` with the non-empty
extension `e = [[0xFF]]` the claimed bracketing fails:
`compose(p ++ e) = [0xFF]` is not lexicographically below
`last([]) = [0xFF]`. -/
theorem C3_counterexample :
    ¬ (lexLe (LexKey.encode_first []) (LexKey.encode_composite ([] ++ [[0xFF]])) = true
      ∧ lexLt (LexKey.encode_composite ([] ++ [[0xFF]])) (LexKey.encode_last []) = true) := by
  decide

/-- C3 (amended: the prefix must be non-empty; for `p = []` the bracketing
fails, see the counterexample): for every non-empty prefix `p` and non-empty
extension `e`, `first p ≤ compose (p ++ e) < last p` under byte comparison;
concretely `first [[0x70,0x61,0x72,0x74]]` is `7061727400` and
`last [[0x70,0x61,0x72,0x74]]` is `70617274ff` in hex. -/
theorem C3_boundary_keys (p e : List (List Nat)) (hp : p ≠ []) (he : e ≠ []) :
    lexLe (LexKey.encode_first p) (LexKey.encode_composite (p ++ e)) = true
    ∧ lexLt (LexKey.encode_composite (p ++ e)) (LexKey.encode_last p) = true
    ∧ LexKey.encode_first [[0x70, 0x61, 0x72, 0x74]] = [0x70, 0x61, 0x72, 0x74, 0x00]
    ∧ LexKey.encode_last [[0x70, 0x61, 0x72, 0x74]] = [0x70, 0x61, 0x72, 0x74, 0xFF] := by
  refine ⟨?_, ?_, by decide, by decide⟩
  · rw [encode_first_eq, encode_composite_append p hp e he]
    have h1 : LexKey.encode_composite p ++ [LexKey.SEPARATOR] =
        (LexKey.encode_composite p ++ [LexKey.SEPARATOR]) ++ [] := by simp
    have h2 : LexKey.encode_composite p ++ LexKey.SEPARATOR :: LexKey.encode_composite e =
        (LexKey.encode_composite p ++ [LexKey.SEPARATOR]) ++ LexKey.encode_composite e := by
      simp
    rw [h1, h2, lexLe_append_same]
    exact lexLe_nil _
  · rw [encode_last_eq, encode_composite_append p hp e he]
    have h3 : LexKey.encode_composite p ++ [LexKey.END_MARKER] =
        LexKey.encode_composite p ++ [LexKey.END_MARKER] := rfl
    rw [lexLt_append_same]
    simpa [LexKey.SEPARATOR, LexKey.END_MARKER] using
      lexLt_sep_cons (LexKey.encode_composite e)

theorem C3_witness :
    lexLe (LexKey.encode_first [[0x01]])
        (LexKey.encode_composite ([[0x01]] ++ [[0x02]])) = true
    ∧ lexLt (LexKey.encode_composite ([[0x01]] ++ [[0x02]]))
        (LexKey.encode_last [[0x01]]) = true
    ∧ LexKey.encode_first [[0x70, 0x61, 0x72, 0x74]] = [0x70, 0x61, 0x72, 0x74, 0x00]
    ∧ LexKey.encode_last [[0x70, 0x61, 0x72, 0x74]] = [0x70, 0x61, 0x72, 0x74, 0xFF] :=
  C3_boundary_keys [[0x01]] [[0x02]] (by decide) (by decide)

/-- C4: encoding a NaN bit pattern through the allocating float transform or
through either buffer-writing float transform never returns a value (the
call panics, modelled as `none`), and every non-NaN input succeeds. -/
theorem C4_nan_rejection (bits : Nat) :
    (isNaN bits = true →
      LexKey.encode_f64 bits = none
      ∧ (∀ dst, LexKey.encode_f64_into dst bits = none)
      ∧ (∀ e : Encoder, Encoder.encode_f64_into e bits = none))
    ∧ (isNaN bits = false →
      (LexKey.encode_f64 bits).isSome = true
      ∧ (∀ dst, (LexKey.encode_f64_into dst bits).isSome = true)
      ∧ (∀ e : Encoder, (Encoder.encode_f64_into e bits).isSome = true)) := by
  constructor <;> intro h <;>
    simp [LexKey.encode_f64, LexKey.encode_f64_into, Encoder.encode_f64_into, h]

theorem C4_witness :
    LexKey.encode_f64 0x7FF8000000000000 = none
    ∧ LexKey.encode_f64_into [] 0x7FF8000000000000 = none
    ∧ (LexKey.encode_f64 0x3FF0000000000000).isSome = true :=
  ⟨((C4_nan_rejection 0x7FF8000000000000).1 (by decide)).1,
    ((C4_nan_rejection 0x7FF8000000000000).1 (by decide)).2.1 [],
    ((C4_nan_rejection 0x3FF0000000000000).2 (by decide)).1⟩

/-- C5: `encode_composite` concatenates the parts with exactly one `0x00`
between adjacent pairs and none at the ends (it equals intercalation with
the separator); zero parts give the empty key, one part is returned
unchanged, and the worked example from the spec evaluates to hex
`666f6f00800000000000002a0001`. -/
theorem C5_composite_structure (parts : List (List Nat)) (p : List Nat) :
    LexKey.encode_composite parts = List.intercalate [LexKey.SEPARATOR] parts
    ∧ LexKey.encode_composite [] = []
    ∧ LexKey.encode_composite [p] = p
    ∧ LexKey.encode_composite [[0x66, 0x6F, 0x6F], LexKey.encode_i64 42, [0x01]] =
        [0x66, 0x6F, 0x6F, 0x00, 0x80, 0x00, 0x00, 0x00, 0x00, 0x00, 0x00, 0x2A,
          0x00, 0x01] :=
  ⟨encode_composite_eq_intercalate parts, rfl, rfl, by decide⟩

/-- C7: an empty part contributes no bytes of its own while the separators
for its position are still emitted, in both buffer-writing composite joins;
composing `[[0x61], [], [0x62]]` yields `0x61 0x00 0x00 0x62`. -/
theorem C7_empty_parts (dst : List Nat) (xs ys : List (List Nat)) :
    (LexKey.encode_composite_into dst (xs ++ [] :: ys)).1 =
      dst ++ LexKey.encode_composite xs ++
        (if xs.isEmpty then [] else [LexKey.SEPARATOR]) ++
        (if ys.isEmpty then [] else [LexKey.SEPARATOR]) ++
        LexKey.encode_composite ys
    ∧ (Encoder.encode_composite_into_buf ⟨dst⟩ (xs ++ [] :: ys)).1.buf =
      dst ++ LexKey.encode_composite xs ++
        (if xs.isEmpty then [] else [LexKey.SEPARATOR]) ++
        (if ys.isEmpty then [] else [LexKey.SEPARATOR]) ++
        LexKey.encode_composite ys
    ∧ (LexKey.encode_composite_into [] [[0x61], [], [0x62]]).1 = [0x61, 0x00, 0x00, 0x62]
    ∧ (Encoder.encode_composite_into_buf ⟨[]⟩ [[0x61], [], [0x62]]).1.buf =
        [0x61, 0x00, 0x00, 0x62] := by
  refine ⟨?_, ?_, by decide, by decide⟩
  · rw [encode_composite_into_eq, encode_composite_middle_empty]
    simp [List.append_assoc]
  · rw [encode_composite_into_buf_eq, encode_composite_middle_empty]
    simp [List.append_assoc]

/-- C8: the byte length of a composite join is the sum of the part lengths
plus `max(parts.len() - 1, 0)` separators, and this is exactly the length
precomputed by `encode_len`. -/
theorem C8_composite_length (parts : List (List Nat)) :
    (LexKey.encode_composite parts).length =
      (parts.map List.length).sum + (parts.length - 1)
    ∧ encode_len parts = (parts.map List.length).sum + (parts.length - 1) := by
  refine ⟨encode_composite_length parts, ?_⟩
  unfold encode_len
  split <;> omega

/-- C9: clearing a previously used scratch-buffer `Encoder` and re-running a
sequence of operations produces exactly the result of running them on a
freshly created `Encoder`: the contents after `clear` coincide with those of
`with_capacity`, and every operation only depends on the current contents. -/
theorem C9_reuse_idempotent (e : Encoder) (cap : Nat) (ops : List Op) :
    runOps (e.clear) ops = runOps (Encoder.with_capacity cap) ops := rfl

/-- C10: the composite join is not injective: the distinct part lists
`[[0x00]]` and `[[], []]` both join to the single byte `0x00`, and
`encode_bool false` is exactly the reserved separator byte. -/
theorem C10_not_injective :
    LexKey.encode_composite [[0x00]] = [0x00]
    ∧ LexKey.encode_composite [[], []] = [0x00]
    ∧ ([[0x00]] : List (List Nat)) ≠ [[], []]
    ∧ LexKey.encode_bool false = [LexKey.SEPARATOR] :=
  ⟨rfl, rfl, by decide, rfl⟩

/-- C2: for all non-NaN 64-bit floats `a < b` (stated on their bit patterns
through the IEEE-754 comparison model `fLt`), `encode_f64 a` is
lexicographically below `encode_f64 b`; additionally
`encode_f64 (-0.0) < encode_f64 0.0`, and the encodings of `-∞`, `-1e308`,
`0.0`, `1e308`, `+∞` (bit patterns `0xFFF0000000000000`,
`0xFFE1CCF385EBC8A0`, `0`, `0x7FE1CCF385EBC8A0`, `0x7FF0000000000000`) are
in strictly increasing byte order. -/
theorem C2_float_order (x y : Nat) (bx yb : List Nat) (hx : x < 2 ^ 64) (hy : y < 2 ^ 64)
    (hbx : LexKey.encode_f64 x = some bx) (hby : LexKey.encode_f64 y = some yb)
    (hlt : fLt x y = true) :
    lexLt bx yb = true
    ∧ LexKey.encode_f64 0x8000000000000000 =
        some [0x7F, 0xFF, 0xFF, 0xFF, 0xFF, 0xFF, 0xFF, 0xFF]
    ∧ LexKey.encode_f64 0x0000000000000000 =
        some [0x80, 0x00, 0x00, 0x00, 0x00, 0x00, 0x00, 0x00]
    ∧ lexLt [0x7F, 0xFF, 0xFF, 0xFF, 0xFF, 0xFF, 0xFF, 0xFF]
        [0x80, 0x00, 0x00, 0x00, 0x00, 0x00, 0x00, 0x00] = true
    ∧ LexKey.encode_f64 0xFFF0000000000000 =
        some [0x00, 0x0F, 0xFF, 0xFF, 0xFF, 0xFF, 0xFF, 0xFF]
    ∧ LexKey.encode_f64 0xFFE1CCF385EBC8A0 =
        some [0x00, 0x1E, 0x33, 0x0C, 0x7A, 0x14, 0x37, 0x5F]
    ∧ LexKey.encode_f64 0x7FE1CCF385EBC8A0 =
        some [0xFF, 0xE1, 0xCC, 0xF3, 0x85, 0xEB, 0xC8, 0xA0]
    ∧ LexKey.encode_f64 0x7FF0000000000000 =
        some [0xFF, 0xF0, 0x00, 0x00, 0x00, 0x00, 0x00, 0x00]
    ∧ lexLt [0x00, 0x0F, 0xFF, 0xFF, 0xFF, 0xFF, 0xFF, 0xFF]
        [0x00, 0x1E, 0x33, 0x0C, 0x7A, 0x14, 0x37, 0x5F] = true
    ∧ lexLt [0x00, 0x1E, 0x33, 0x0C, 0x7A, 0x14, 0x37, 0x5F]
        [0x80, 0x00, 0x00, 0x00, 0x00, 0x00, 0x00, 0x00] = true
    ∧ lexLt [0x80, 0x00, 0x00, 0x00, 0x00, 0x00, 0x00, 0x00]
        [0xFF, 0xE1, 0xCC, 0xF3, 0x85, 0xEB, 0xC8, 0xA0] = true
    ∧ lexLt [0xFF, 0xE1, 0xCC, 0xF3, 0x85, 0xEB, 0xC8, 0xA0]
        [0xFF, 0xF0, 0x00, 0x00, 0x00, 0x00, 0x00, 0x00] = true := by
  refine ⟨?_, by decide, by decide, by decide, by decide, by decide, by decide,
    by decide, by decide, by decide, by decide, by decide⟩
  unfold LexKey.encode_f64 at hbx hby
  split at hbx
  · exact Option.noConfusion hbx
  · split at hby
    · exact Option.noConfusion hby
    · injection hbx with hbx
      injection hby with hby
      subst hbx
      subst hby
      have h88 : (2 : Nat) ^ (8 * 8) = 2 ^ 64 := by norm_num
      have b1 : f64_transform x < 2 ^ (8 * 8) := by
        rw [h88]
        exact f64_transform_lt_two_pow hx
      have b2 : f64_transform y < 2 ^ (8 * 8) := by
        rw [h88]
        exact f64_transform_lt_two_pow hy
      exact (toBE_lt_iff 8 _ _ b1 b2).mpr (f64_transform_lt hx hy hlt)

theorem C2_witness :
    lexLt [0xBF, 0xF0, 0x00, 0x00, 0x00, 0x00, 0x00, 0x00]
        [0xC0, 0x00, 0x00, 0x00, 0x00, 0x00, 0x00, 0x00] = true
    ∧ LexKey.encode_f64 0x8000000000000000 =
        some [0x7F, 0xFF, 0xFF, 0xFF, 0xFF, 0xFF, 0xFF, 0xFF]
    ∧ LexKey.encode_f64 0x0000000000000000 =
        some [0x80, 0x00, 0x00, 0x00, 0x00, 0x00, 0x00, 0x00]
    ∧ lexLt [0x7F, 0xFF, 0xFF, 0xFF, 0xFF, 0xFF, 0xFF, 0xFF]
        [0x80, 0x00, 0x00, 0x00, 0x00, 0x00, 0x00, 0x00] = true
    ∧ LexKey.encode_f64 0xFFF0000000000000 =
        some [0x00, 0x0F, 0xFF, 0xFF, 0xFF, 0xFF, 0xFF, 0xFF]
    ∧ LexKey.encode_f64 0xFFE1CCF385EBC8A0 =
        some [0x00, 0x1E, 0x33, 0x0C, 0x7A, 0x14, 0x37, 0x5F]
    ∧ LexKey.encode_f64 0x7FE1CCF385EBC8A0 =
        some [0xFF, 0xE1, 0xCC, 0xF3, 0x85, 0xEB, 0xC8, 0xA0]
    ∧ LexKey.encode_f64 0x7FF0000000000000 =
        some [0xFF, 0xF0, 0x00, 0x00, 0x00, 0x00, 0x00, 0x00]
    ∧ lexLt [0x00, 0x0F, 0xFF, 0xFF, 0xFF, 0xFF, 0xFF, 0xFF]
        [0x00, 0x1E, 0x33, 0x0C, 0x7A, 0x14, 0x37, 0x5F] = true
    ∧ lexLt [0x00, 0x1E, 0x33, 0x0C, 0x7A, 0x14, 0x37, 0x5F]
        [0x80, 0x00, 0x00, 0x00, 0x00, 0x00, 0x00, 0x00] = true
    ∧ lexLt [0x80, 0x00, 0x00, 0x00, 0x00, 0x00, 0x00, 0x00]
        [0xFF, 0xE1, 0xCC, 0xF3, 0x85, 0xEB, 0xC8, 0xA0] = true
    ∧ lexLt [0xFF, 0xE1, 0xCC, 0xF3, 0x85, 0xEB, 0xC8, 0xA0]
        [0xFF, 0xF0, 0x00, 0x00, 0x00, 0x00, 0x00, 0x00] = true :=
  C2_float_order 0x3FF0000000000000 0x4000000000000000
    [0xBF, 0xF0, 0x00, 0x00, 0x00, 0x00, 0x00, 0x00]
    [0xC0, 0x00, 0x00, 0x00, 0x00, 0x00, 0x00, 0x00]
    (by decide) (by decide) (by decide) (by decide) (by decide)

/-- C6: for every scalar type and for composites, the buffer-writing form
appends to the destination exactly the bytes the value-returning form
produces and returns that byte count; in particular the branchless `Encoder`
float transform agrees with the branching allocating float transform on
every (non-NaN) 64-bit pattern. -/
theorem C6_into_refinement (dst : List Nat) (n : Nat) (m : Int) (b : Bool)
    (s u : List Nat) (x : Nat) (parts : List (List Nat)) (e : Encoder)
    (hu : u.length = 16) (hx : isNaN x = false) (hx64 : x < 2 ^ 64) :
    LexKey.encode_u64_into dst n =
      (dst ++ LexKey.encode_u64 n, (LexKey.encode_u64 n).length)
    ∧ LexKey.encode_i64_into dst m =
      (dst ++ LexKey.encode_i64 m, (LexKey.encode_i64 m).length)
    ∧ LexKey.encode_bool_into dst b =
      (dst ++ LexKey.encode_bool b, (LexKey.encode_bool b).length)
    ∧ LexKey.encode_uuid_into dst u =
      (dst ++ LexKey.encode_uuid u, (LexKey.encode_uuid u).length)
    ∧ LexKey.encode_f64_into dst x =
      (LexKey.encode_f64 x).map (fun v => (dst ++ v, v.length))
    ∧ Encoder.encode_string_into e s =
      (⟨e.buf ++ LexKey.encode_string s⟩, (LexKey.encode_string s).length)
    ∧ Encoder.encode_u64_into e n =
      (⟨e.buf ++ LexKey.encode_u64 n⟩, (LexKey.encode_u64 n).length)
    ∧ Encoder.encode_i64_into e m =
      (⟨e.buf ++ LexKey.encode_i64 m⟩, (LexKey.encode_i64 m).length)
    ∧ Encoder.encode_uuid_into_buf e u =
      (⟨e.buf ++ LexKey.encode_uuid u⟩, (LexKey.encode_uuid u).length)
    ∧ Encoder.encode_f64_into e x =
      (LexKey.encode_f64 x).map (fun v => (⟨e.buf ++ v⟩, v.length))
    ∧ LexKey.encode_composite_into dst parts =
      (dst ++ LexKey.encode_composite parts, (LexKey.encode_composite parts).length)
    ∧ Encoder.encode_composite_into_buf e parts =
      (⟨e.buf ++ LexKey.encode_composite parts⟩, (LexKey.encode_composite parts).length)
    ∧ f64_transform_branchless x = f64_transform x := by
  refine ⟨?_, ?_, ?_, ?_, ?_, ?_, ?_, ?_, ?_, ?_, ?_, ?_, ?_⟩
  · simp [LexKey.encode_u64_into, LexKey.encode_u64, toBE_length]
  · simp [LexKey.encode_i64_into, LexKey.encode_i64, toBE_length]
  · cases b <;> simp [LexKey.encode_bool_into, LexKey.encode_bool]
  · simp [LexKey.encode_uuid_into, LexKey.encode_uuid, hu]
  · simp [LexKey.encode_f64_into, LexKey.encode_f64, hx, toBE_length]
  · simp [Encoder.encode_string_into, LexKey.encode_string]
  · simp [Encoder.encode_u64_into, LexKey.encode_u64, toBE_length]
  · simp [Encoder.encode_i64_into, LexKey.encode_i64, toBE_length]
  · simp [Encoder.encode_uuid_into_buf, LexKey.encode_uuid, hu]
  · simp [Encoder.encode_f64_into, LexKey.encode_f64, hx, toBE_length,
      f64_transform_branchless_eq hx64]
  · exact encode_composite_into_eq dst parts
  · exact encode_composite_into_buf_eq e parts
  · exact f64_transform_branchless_eq hx64

theorem C6_witness :
    LexKey.encode_u64_into [0x01] 5 =
      ([0x01] ++ LexKey.encode_u64 5, (LexKey.encode_u64 5).length)
    ∧ f64_transform_branchless 0x3FF0000000000000 = f64_transform 0x3FF0000000000000 := by
  have h := C6_into_refinement [0x01] 5 (-2) true [0x61]
    [0, 0, 0, 0, 0, 0, 0, 0, 0, 0, 0, 0, 0, 0, 0, 0] 0x3FF0000000000000
    [[0x61], [0x62]] ⟨[0x05]⟩ (by decide) (by decide) (by decide)
  exact ⟨h.1, h.2.2.2.2.2.2.2.2.2.2.2.2⟩
